import Mathlib

/-!
Verification development for a small Redis-compatible server written in Rust
(`frame.rs`, `connection.rs`, `handlers.rs`, `db.rs`).  The Rust code is
shallowly embedded: byte buffers become `List Nat` (each element a byte),
`Result`/panics become `Except PErr`, the async connection loop becomes
explicit state passing, and the monotonic clock becomes an explicit `Nat`
millisecond parameter.  Machine-integer overflow is made explicit with
`% 2 ^ 64` where the Rust release build wraps.
-/

set_option maxHeartbeats 1000000

deriving instance DecidableEq for Except

namespace Redis

/-- Outcome tags for embedded Rust code: `err` is a propagated
`anyhow::Result` error (`?`), `panicked` is a Rust panic (index out of
bounds, `unwrap` on an error, explicit `panic!`, invalid slice range), and
`fuel` marks exhaustion of the structural-recursion budget of the embedding
(never reached from the entry points used in the theorems below). -/
inductive PErr where
  | err
  | panicked
  | fuel
deriving DecidableEq, Repr

/-- Mirror of `enum Frame` in `frame.rs` (the `resp::Value` enum used by
`handlers.rs` has the same four variants).  Rust `String` payloads are
embedded as their UTF-8 byte sequences (`List Nat`). -/
inductive Frame where
  | SimpleString (s : List Nat)
  | BulkString (s : List Nat)
  | Array (items : List Frame)
  | NullBulkString

mutual

/-- Boolean structural equality on frames (used to build `DecidableEq`,
which the nested occurrence of `List Frame` keeps `deriving` from doing). -/
def frameBeq : Frame → Frame → Bool
  | .SimpleString a, .SimpleString b => a == b
  | .BulkString a, .BulkString b => a == b
  | .NullBulkString, .NullBulkString => true
  | .Array xs, .Array ys => frameListBeq xs ys
  | _, _ => false

/-- Elementwise `frameBeq` on frame lists. -/
def frameListBeq : List Frame → List Frame → Bool
  | [], [] => true
  | x :: xs, y :: ys => frameBeq x y && frameListBeq xs ys
  | _, _ => false

end

mutual

theorem frameBeq_iff : ∀ a b : Frame, frameBeq a b = true ↔ a = b
  | .SimpleString a, .SimpleString b => by simp [frameBeq]
  | .SimpleString _, .BulkString _ => by simp [frameBeq]
  | .SimpleString _, .Array _ => by simp [frameBeq]
  | .SimpleString _, .NullBulkString => by simp [frameBeq]
  | .BulkString _, .SimpleString _ => by simp [frameBeq]
  | .BulkString a, .BulkString b => by simp [frameBeq]
  | .BulkString _, .Array _ => by simp [frameBeq]
  | .BulkString _, .NullBulkString => by simp [frameBeq]
  | .Array _, .SimpleString _ => by simp [frameBeq]
  | .Array _, .BulkString _ => by simp [frameBeq]
  | .Array xs, .Array ys => by
    simp only [frameBeq, Frame.Array.injEq]
    exact frameListBeq_iff xs ys
  | .Array _, .NullBulkString => by simp [frameBeq]
  | .NullBulkString, .SimpleString _ => by simp [frameBeq]
  | .NullBulkString, .BulkString _ => by simp [frameBeq]
  | .NullBulkString, .Array _ => by simp [frameBeq]
  | .NullBulkString, .NullBulkString => by simp [frameBeq]

theorem frameListBeq_iff : ∀ xs ys : List Frame, frameListBeq xs ys = true ↔ xs = ys
  | [], [] => by simp [frameListBeq]
  | [], _ :: _ => by simp [frameListBeq]
  | _ :: _, [] => by simp [frameListBeq]
  | x :: xs, y :: ys => by
    simp only [frameListBeq, Bool.and_eq_true, List.cons.injEq]
    exact and_congr (frameBeq_iff x y) (frameListBeq_iff xs ys)

end

instance : DecidableEq Frame := fun a b =>
  decidable_of_iff (frameBeq a b = true) (frameBeq_iff a b)

/-- Byte pair `\r\n`. -/
def crlf : List Nat := [13, 10]

/-- ASCII decimal digits of `n`, most significant first: the bytes produced
by Rust's `format!("{}", n)` for an unsigned integer.  The first argument
is a structural recursion budget; any budget at least `n` gives the true
digit string (`natDec` below passes `n` itself). -/
def natDecCore : Nat → Nat → List Nat → List Nat
  | 0, n, acc => (48 + n % 10) :: acc
  | f + 1, n, acc =>
    let acc' := (48 + n % 10) :: acc
    if n / 10 = 0 then acc' else natDecCore f (n / 10) acc'

/-- Decimal byte string of `n` (see `natDecCore`). -/
def natDec (n : Nat) : List Nat := natDecCore n n []

/-- Rust `s.chars().count()` for a valid-UTF-8 byte string: the number of
bytes that are not UTF-8 continuation bytes (`0x80..=0xBF`). -/
def charsCount (s : List Nat) : Nat :=
  (s.filter (fun b => decide (b < 128) || decide (192 ≤ b))).length

mutual

/-- Mirror of `Frame::serialize` in `frame.rs`.  Note the source writes the
**char count** (`s.chars().count()`), not the byte length, as the bulk-string
length header. -/
def serialize : Frame → List Nat
  | .SimpleString s => 43 :: s ++ crlf
  | .BulkString s => 36 :: natDec (charsCount s) ++ crlf ++ s ++ crlf
  | .NullBulkString => [36, 45, 49, 13, 10]
  | .Array values => 42 :: natDec values.length ++ crlf ++ serializeList values

/-- Concatenation of the serializations of a list of frames: the
`map`/`join` the source performs on an array's elements. -/
def serializeList : List Frame → List Nat
  | [] => []
  | x :: r => serialize x ++ serializeList r

end

/-- Mirror of `read_until_crlf` in `frame.rs`: scan for the first adjacent
`\r\n` pair; return the bytes before it and the count of bytes up to and
including the pair. -/
def read_until_crlf : List Nat → Option (List Nat × Nat)
  | a :: b :: rest =>
    if a = 13 ∧ b = 10 then some ([], 2)
    else (read_until_crlf (b :: rest)).map (fun p => (a :: p.1, p.2 + 1))
  | _ => none

/-- Decimal digit test (ASCII `0`..`9`). -/
def isDigit (b : Nat) : Bool := decide (48 ≤ b) && decide (b ≤ 57)

/-- Value of a big-endian list of decimal digit bytes. -/
def decVal (l : List Nat) : Nat := l.foldl (fun a d => a * 10 + (d - 48)) 0

/-- Mirror of `parse_int` in `frame.rs`: Rust `str::parse::<i64>()` over the
given bytes — an optional sign, then at least one digit, rejecting values
outside the `i64` range.  (The `String::from_utf8` step never fails here
because any byte string accepted by the grammar below is ASCII.) -/
def parse_int_of (neg : Bool) (digits : List Nat) : Except PErr Int :=
  if digits = [] then .error .err
  else if digits.all isDigit then
    if neg then
      if decVal digits ≤ 2 ^ 63 then .ok (-(decVal digits : Int)) else .error .err
    else
      if decVal digits ≤ 2 ^ 63 - 1 then .ok (decVal digits : Int) else .error .err
  else .error .err

/-- Sign dispatch of `parse_int` (see `parse_int_of`). -/
def parse_int (s : List Nat) : Except PErr Int :=
  match s with
  | [] => .error .err
  | c :: rest =>
    if c = 45 then parse_int_of true rest
    else if c = 43 then parse_int_of false rest
    else parse_int_of false (c :: rest)

/-- Rust `x as usize` for `x : i64`: two's-complement wrap into `0..2^64`. -/
def i64AsUsize (x : Int) : Nat := (x % (2 ^ 64 : Int)).toNat

/-- UTF-8 continuation byte test (`0x80..=0xBF`). -/
def isCont (b : Nat) : Bool := decide (128 ≤ b) && decide (b ≤ 191)

/-- Leader-byte classification for the RFC 3629 UTF-8 table: for a byte at
or above `0x80`, the allowed range of the first continuation byte and how
many further plain continuation bytes follow; `none` for bytes that can
never start a sequence (`0x80..=0xC1`, `0xF5..`). -/
def utf8Need (b : Nat) : Option (Nat × Nat × Nat) :=
  if b < 194 then none
  else if b ≤ 223 then some (128, 191, 0)
  else if b = 224 then some (160, 191, 1)
  else if b ≤ 236 then some (128, 191, 1)
  else if b = 237 then some (128, 159, 1)
  else if b ≤ 239 then some (128, 191, 1)
  else if b = 240 then some (144, 191, 2)
  else if b ≤ 243 then some (128, 191, 2)
  else if b = 244 then some (128, 143, 2)
  else none

/-- Closed-interval byte test. -/
def inRange (lo hi c : Nat) : Bool := decide (lo ≤ c) && decide (c ≤ hi)

/-- Rust `String::from_utf8` validity check (RFC 3629 table via `utf8Need`:
rejects overlong forms, surrogates, and values above `U+10FFFF`). -/
def utf8Valid : List Nat → Bool
  | [] => true
  | b :: r =>
    if b ≤ 127 then utf8Valid r
    else match utf8Need b, r with
      | some (lo, hi, 0), c1 :: r' => inRange lo hi c1 && utf8Valid r'
      | some (lo, hi, 1), c1 :: c2 :: r' => inRange lo hi c1 && isCont c2 && utf8Valid r'
      | some (lo, hi, 2), c1 :: c2 :: c3 :: r' =>
          inRange lo hi c1 && isCont c2 && isCont c3 && utf8Valid r'
      | _, _ => false

/-- Mirror of `parse_simple_string` in `frame.rs`: scan the bytes after the
type byte for CRLF.  The source's `String::from_utf8(..).unwrap()` panics on
invalid UTF-8. -/
def parse_simple_string (buffer : List Nat) : Except PErr (Frame × Nat) :=
  match read_until_crlf (buffer.drop 1) with
  | some (line, len) =>
    if utf8Valid line then .ok (.SimpleString line, len + 1) else .error .panicked
  | none => .error .err

/-- Mirror of `parse_bulk_string` in `frame.rs`.  The declared length is an
`i64` cast with `as usize` (wrapping), the slice bounds are those of
`buffer[bytes_consumed..end_of_bulk_str]` (a reversed or out-of-range slice
panics), the reported consumption is `end_of_bulk_str + 2` without checking
that a CRLF is actually there, and `String::from_utf8(..)?` propagates an
error on invalid UTF-8.  There is no `-1` special case. -/
def parse_bulk_string (buffer : List Nat) : Except PErr (Frame × Nat) :=
  match read_until_crlf (buffer.drop 1) with
  | none => .error .err
  | some (line, len) =>
    match parse_int line with
    | .error e => .error e
    | .ok bulk_str_len =>
      let bytes_consumed := len + 1
      let end_of_bulk_str := (bytes_consumed + i64AsUsize bulk_str_len) % 2 ^ 64
      let total_parsed := end_of_bulk_str + 2
      if bytes_consumed ≤ end_of_bulk_str ∧ end_of_bulk_str ≤ buffer.length then
        let payload := (buffer.drop bytes_consumed).take (end_of_bulk_str - bytes_consumed)
        if utf8Valid payload then .ok (.BulkString payload, total_parsed)
        else .error .err
      else .error .panicked

mutual

/-- Mirror of `Frame::parse_message` in `frame.rs`, with an explicit
recursion budget standing in for Rust's unbounded recursion (each budget
unit covers one `parse_message`/loop-iteration step, and any budget above
the buffer length is enough because every step first consumes bytes; the
entry point `parse_message` below supplies one).  `parse_array` of the
source is inlined at its only call site, the `*` branch: read the element
count, then parse that many sub-frames from the advancing cursor; a
negative count makes Rust's `0..array_length` loop empty.  Indexing
`buffer[0]` on an empty buffer panics. -/
def parse_message_f : Nat → List Nat → Except PErr (Frame × Nat)
  | 0, _ => .error .fuel
  | fuel + 1, buffer =>
    match buffer with
    | [] => .error .panicked
    | b :: _ =>
      if b = 43 then parse_simple_string buffer
      else if b = 42 then
        match read_until_crlf (buffer.drop 1) with
        | none => .error .err
        | some (line, len) =>
          match parse_int line with
          | .error e => .error e
          | .ok array_length =>
            match parse_items_f fuel array_length.toNat buffer (len + 1) with
            | .error e => .error e
            | .ok (items, bytes_consumed) => .ok (.Array items, bytes_consumed)
      else if b = 36 then parse_bulk_string buffer
      else .error .err

/-- The `for _ in 0..array_length` loop body of `parse_array`: parse one
frame starting at offset `consumed`, advance, repeat `count` times. -/
def parse_items_f : Nat → Nat → List Nat → Nat → Except PErr (List Frame × Nat)
  | 0, _, _, _ => .error .fuel
  | _ + 1, 0, _, consumed => .ok ([], consumed)
  | fuel + 1, count' + 1, buffer, consumed =>
    match parse_message_f fuel (buffer.drop consumed) with
    | .error e => .error e
    | .ok (item, len) =>
      match parse_items_f fuel count' buffer (consumed + len) with
      | .error e => .error e
      | .ok (items, total) => .ok (item :: items, total)

end

/-- Entry point matching `Frame::parse_message`: the recursion budget
`buffer.length + 1` strictly exceeds the nesting depth any parse of
`buffer` can reach. -/
def parse_message (buffer : List Nat) : Except PErr (Frame × Nat) :=
  parse_message_f (buffer.length + 1) buffer

/-- Bytes that never contain an adjacent `\r\n` pair. -/
def no_crlf : List Nat → Bool
  | a :: b :: r => !(decide (a = 13) && decide (b = 10)) && no_crlf (b :: r)
  | _ => true

/-- ASCII predicate: every byte below `0x80`. -/
def ascii (s : List Nat) : Bool := s.all (fun b => decide (b < 128))

theorem no_crlf_of_no_cr {s : List Nat} (h : ∀ b ∈ s, b ≠ 13) : no_crlf s = true := by
  induction s with
  | nil => rfl
  | cons a t ih =>
    match t with
    | [] => rfl
    | b :: r =>
      have ha : a ≠ 13 := h a (by simp)
      have ht : ∀ x ∈ b :: r, x ≠ 13 := fun x hx => h x (by simp [hx])
      simp [no_crlf, ha, ih ht]

theorem read_until_crlf_spec (s rest : List Nat) (h : no_crlf s = true) :
    read_until_crlf (s ++ 13 :: 10 :: rest) = some (s, s.length + 2) := by
  induction s with
  | nil =>
    show read_until_crlf (13 :: 10 :: rest) = _
    rw [read_until_crlf, if_pos ⟨rfl, rfl⟩]
    rfl
  | cons a t ih =>
    match t with
    | [] =>
      show read_until_crlf (a :: 13 :: 10 :: rest) = _
      rw [read_until_crlf, if_neg (by omega), read_until_crlf, if_pos ⟨rfl, rfl⟩]
      rfl
    | b :: r =>
      have hh : (¬ (a = 13 ∧ b = 10)) ∧ no_crlf (b :: r) = true := by
        rw [no_crlf, Bool.and_eq_true] at h
        refine ⟨?_, h.2⟩
        intro hc
        rw [hc.1, hc.2] at h
        simp at h
      have ih' := ih hh.2
      show read_until_crlf (a :: (b :: r ++ 13 :: 10 :: rest)) = _
      rw [show (b :: r ++ 13 :: 10 :: rest) = (b :: (r ++ 13 :: 10 :: rest)) from rfl,
        read_until_crlf, if_neg hh.1,
        show (b :: (r ++ 13 :: 10 :: rest)) = (b :: r ++ 13 :: 10 :: rest) from rfl, ih']
      simp

theorem utf8Valid_of_ascii {s : List Nat} (h : ascii s = true) : utf8Valid s = true := by
  induction s with
  | nil => rfl
  | cons a t ih =>
    simp only [ascii, List.all_cons, Bool.and_eq_true, decide_eq_true_eq] at h
    have ha : a ≤ 127 := by omega
    rw [utf8Valid.eq_def]
    simp only [if_pos ha]
    exact ih h.2

theorem charsCount_of_ascii {s : List Nat} (h : ascii s = true) : charsCount s = s.length := by
  unfold charsCount
  have : s.filter (fun b => decide (b < 128) || decide (192 ≤ b)) = s := by
    apply List.filter_eq_self.mpr
    intro b hb
    simp only [ascii, List.all_eq_true, decide_eq_true_eq] at h
    simp [h b hb]
  rw [this]

theorem natDecCore_small (fuel n : Nat) (acc : List Nat) (h : n / 10 = 0) :
    natDecCore fuel n acc = (48 + n % 10) :: acc := by
  cases fuel with
  | zero => rfl
  | succ f =>
    simp only [natDecCore]
    rw [if_pos h]

theorem natDecCore_append (fuel : Nat) : ∀ (n : Nat) (acc : List Nat),
    natDecCore fuel n acc = natDecCore fuel n [] ++ acc := by
  induction fuel with
  | zero => intro n acc; rfl
  | succ f ih =>
    intro n acc
    by_cases h : n / 10 = 0
    · rw [natDecCore_small _ n acc h, natDecCore_small _ n [] h]
      rfl
    · simp only [natDecCore]
      rw [if_neg h, if_neg h, ih (n / 10) ((48 + n % 10) :: acc),
        ih (n / 10) ((48 + n % 10) :: [])]
      simp

theorem natDecCore_fuel (n : Nat) : ∀ f g : Nat, n ≤ f → n ≤ g →
    natDecCore f n [] = natDecCore g n [] := by
  induction n using Nat.strong_induction_on with
  | _ n ih =>
    intro f g hf hg
    by_cases h : n / 10 = 0
    · rw [natDecCore_small f n [] h, natDecCore_small g n [] h]
    · have h10 : 10 ≤ n := by
        by_contra hc
        exact h (Nat.div_eq_of_lt (by omega))
      obtain ⟨f', rfl⟩ : ∃ f', f = f' + 1 := ⟨f - 1, by omega⟩
      obtain ⟨g', rfl⟩ : ∃ g', g = g' + 1 := ⟨g - 1, by omega⟩
      simp only [natDecCore]
      rw [if_neg h, if_neg h, natDecCore_append f' (n / 10), natDecCore_append g' (n / 10)]
      have hdlt : n / 10 < n := Nat.div_lt_self (by omega) (by omega)
      rw [ih (n / 10) hdlt f' g' (by omega) (by omega)]

theorem natDec_small (n : Nat) (h : n / 10 = 0) : natDec n = [48 + n % 10] := by
  rw [natDec, natDecCore_small n n [] h]

theorem natDec_step (n : Nat) (h : ¬ n / 10 = 0) :
    natDec n = natDec (n / 10) ++ [48 + n % 10] := by
  have h10 : 10 ≤ n := by
    by_contra hc
    exact h (Nat.div_eq_of_lt (by omega))
  obtain ⟨m, hm⟩ : ∃ m, n = m + 1 := ⟨n - 1, by omega⟩
  have hdlt : n / 10 < n := Nat.div_lt_self (by omega) (by omega)
  calc natDec n = natDecCore (m + 1) n [] := by rw [natDec, hm]
    _ = natDecCore m (n / 10) ((48 + n % 10) :: []) := by
        simp only [natDecCore]
        rw [hm] at h ⊢
        rw [if_neg h]
    _ = natDecCore m (n / 10) [] ++ [48 + n % 10] := natDecCore_append m (n / 10) _
    _ = natDec (n / 10) ++ [48 + n % 10] := by
        rw [natDec, natDecCore_fuel (n / 10) m (n / 10) (by omega) (by omega)]

theorem natDec_digits (n : Nat) : ∀ b ∈ natDec n, 48 ≤ b ∧ b ≤ 57 := by
  induction n using Nat.strong_induction_on with
  | _ n ih =>
    by_cases h : n / 10 = 0
    · rw [natDec_small n h]
      intro b hb
      simp only [List.mem_singleton] at hb
      have := Nat.mod_lt n (y := 10) (by omega)
      omega
    · rw [natDec_step n h]
      intro b hb
      rcases List.mem_append.mp hb with hb | hb
      · exact ih _ (Nat.div_lt_self (Nat.pos_of_ne_zero (by omega)) (by omega)) b hb
      · simp only [List.mem_singleton] at hb
        have := Nat.mod_lt n (y := 10) (by omega)
        omega

theorem natDec_ne_nil (n : Nat) : natDec n ≠ [] := by
  by_cases h : n / 10 = 0
  · rw [natDec_small n h]; simp
  · rw [natDec_step n h]; simp

theorem decVal_append (xs : List Nat) (d : Nat) :
    decVal (xs ++ [d]) = decVal xs * 10 + (d - 48) := by
  simp [decVal, List.foldl_append]

theorem decVal_natDec (n : Nat) : decVal (natDec n) = n := by
  induction n using Nat.strong_induction_on with
  | _ n ih =>
    by_cases h : n / 10 = 0
    · rw [natDec_small n h]
      simp only [decVal, List.foldl_cons, List.foldl_nil]
      omega
    · rw [natDec_step n h, decVal_append,
        ih _ (Nat.div_lt_self (Nat.pos_of_ne_zero (by omega)) (by omega))]
      omega

theorem natDec_length_le (k : Nat) : ∀ n, n < 10 ^ k → (natDec n).length ≤ k + 1 := by
  induction k with
  | zero =>
    intro n h
    have : n = 0 := by omega
    subst this
    rw [natDec_small 0 (by omega)]
    simp
  | succ k ih =>
    intro n h
    by_cases h0 : n / 10 = 0
    · rw [natDec_small n h0]; simp
    · rw [natDec_step n h0]
      have hd : n / 10 < 10 ^ k := by
        rw [Nat.pow_succ] at h
        omega
      have := ih (n / 10) hd
      simp only [List.length_append, List.length_cons, List.length_nil]
      omega

theorem parse_int_of_natDec (n : Nat) (h : n < 2 ^ 63) :
    parse_int_of false (natDec n) = .ok (n : Int) := by
  rw [parse_int_of, if_neg (natDec_ne_nil n)]
  have hall : (natDec n).all isDigit = true := by
    apply List.all_eq_true.mpr
    intro b hb
    have := natDec_digits n b hb
    simp only [isDigit, Bool.and_eq_true, decide_eq_true_eq]
    omega
  rw [if_pos hall]
  simp only [Bool.false_eq_true, if_false]
  rw [decVal_natDec n, if_pos (by omega)]

theorem parse_int_natDec (n : Nat) (h : n < 2 ^ 63) : parse_int (natDec n) = .ok (n : Int) := by
  obtain ⟨c, rest, hcr⟩ : ∃ c rest, natDec n = c :: rest := by
    match hne : natDec n with
    | [] => exact absurd hne (natDec_ne_nil n)
    | c :: rest => exact ⟨c, rest, rfl⟩
  have hc := natDec_digits n c (by rw [hcr]; simp)
  rw [hcr, parse_int]
  rw [if_neg (by omega : ¬ c = 45), if_neg (by omega : ¬ c = 43), ← hcr]
  exact parse_int_of_natDec n h

theorem natDec_no_crlf (n : Nat) : no_crlf (natDec n) = true :=
  no_crlf_of_no_cr (fun b hb => by have := natDec_digits n b hb; omega)

mutual

/-- Frames the serializer/parser pair actually round-trips: ASCII string
payloads (so `chars().count()` agrees with the byte length and
`String::from_utf8` succeeds), no `\r\n` inside a `SimpleString` (the CRLF
scanner would stop there), no `NullBulkString` (the parser has no `-1`
case), and lengths inside the `i64` range the length headers are parsed
into (automatic for real Rust collections, which cannot exceed
`isize::MAX` elements). -/
def wfFrame : Frame → Bool
  | .SimpleString s => ascii s && no_crlf s
  | .BulkString s => ascii s && decide (s.length < 2 ^ 63)
  | .NullBulkString => false
  | .Array xs => decide (xs.length < 2 ^ 63) && wfList xs

/-- Every member satisfies `wfFrame`. -/
def wfList : List Frame → Bool
  | [] => true
  | x :: r => wfFrame x && wfList r

end

mutual

/-- Recursion budget a frame's parse needs: one unit per
`parse_message` call and per loop iteration inside an array. -/
def cost : Frame → Nat
  | .Array xs => costItems xs + 1
  | _ => 0

/-- Budget needed by the items loop over a list of frames. -/
def costItems : List Frame → Nat
  | [] => 0
  | x :: r => max (cost x) (costItems r) + 1

end

theorem serialize_length_pos (F : Frame) : 0 < (serialize F).length := by
  cases F <;> simp [serialize]

mutual

theorem cost_le_serialize_length : ∀ F : Frame, cost F ≤ (serialize F).length
  | .SimpleString _ => by simp [cost]
  | .BulkString _ => by simp [cost]
  | .NullBulkString => by simp [cost]
  | .Array xs => by
    have h := costItems_le_serializeList_length xs
    have hc : crlf.length = 2 := rfl
    simp only [cost, serialize, List.length_cons, List.length_append]
    omega

theorem costItems_le_serializeList_length :
    ∀ xs : List Frame, costItems xs ≤ (serializeList xs).length + 1
  | [] => by simp [costItems, serializeList]
  | x :: r => by
    have h1 := cost_le_serialize_length x
    have h2 := costItems_le_serializeList_length r
    have h3 := serialize_length_pos x
    simp only [costItems, serializeList, List.length_append]
    omega

end

theorem i64AsUsize_ofNat (n : Nat) (h : n < 2 ^ 64) : i64AsUsize (n : Int) = n := by
  unfold i64AsUsize
  rw [Int.emod_eq_of_lt (by omega) (by exact_mod_cast h)]
  exact Int.toNat_natCast n

theorem parse_simple_serialize (s rest : List Nat) (ha : ascii s = true)
    (hc : no_crlf s = true) :
    parse_simple_string (serialize (.SimpleString s) ++ rest) =
      .ok (.SimpleString s, (serialize (.SimpleString s)).length) := by
  have hdrop : (serialize (.SimpleString s) ++ rest).drop 1 = s ++ 13 :: 10 :: rest := by
    simp [serialize, crlf]
  rw [parse_simple_string, hdrop, read_until_crlf_spec s rest hc]
  dsimp only
  rw [if_pos (utf8Valid_of_ascii ha)]
  simp [serialize, crlf]

theorem parse_bulk_serialize (s rest : List Nat) (ha : ascii s = true)
    (hl : s.length < 2 ^ 63) :
    parse_bulk_string (serialize (.BulkString s) ++ rest) =
      .ok (.BulkString s, (serialize (.BulkString s)).length) := by
  have hcc : charsCount s = s.length := charsCount_of_ascii ha
  have hD : (natDec s.length).length ≤ 20 := by
    have h19 : s.length < 10 ^ 19 := by
      have : (2 : Nat) ^ 63 < 10 ^ 19 := by norm_num
      omega
    have := natDec_length_le 19 s.length h19
    omega
  have hdrop : (serialize (.BulkString s) ++ rest).drop 1 =
      natDec s.length ++ 13 :: 10 :: (s ++ 13 :: 10 :: rest) := by
    simp [serialize, crlf, hcc]
  rw [parse_bulk_string, hdrop,
    read_until_crlf_spec (natDec s.length) (s ++ 13 :: 10 :: rest) (natDec_no_crlf s.length)]
  dsimp only
  rw [parse_int_natDec s.length hl]
  dsimp only
  rw [i64AsUsize_ofNat s.length (by omega)]
  set D := (natDec s.length).length with hDdef
  have hmod : (D + 2 + 1 + s.length) % 2 ^ 64 = D + 3 + s.length := by
    rw [Nat.mod_eq_of_lt (by omega)]
  rw [hmod]
  have hlen : (serialize (.BulkString s) ++ rest).length = D + s.length + 5 + rest.length := by
    simp [serialize, crlf, hcc]
    omega
  rw [if_pos (by rw [hlen]; omega)]
  have hsplit : serialize (.BulkString s) ++ rest =
      (36 :: (natDec s.length ++ [13, 10])) ++ (s ++ 13 :: 10 :: rest) := by
    simp [serialize, crlf, hcc]
  have hdrop2 : (serialize (.BulkString s) ++ rest).drop (D + 2 + 1) =
      s ++ 13 :: 10 :: rest := by
    rw [hsplit]
    apply List.drop_left'
    simp [hDdef]
  rw [hdrop2]
  have htake : (s ++ 13 :: 10 :: rest).take (D + 3 + s.length - (D + 2 + 1)) = s := by
    have : D + 3 + s.length - (D + 2 + 1) = s.length := by omega
    rw [this]
    exact List.take_left s _
  rw [htake, if_pos (utf8Valid_of_ascii ha)]
  have : (serialize (.BulkString s)).length = D + 3 + s.length + 2 := by
    simp [serialize, crlf, hcc]
    omega
  rw [this]

mutual

theorem parse_serialize_f :
    ∀ (F : Frame), wfFrame F = true → ∀ (fuel : Nat), cost F < fuel → ∀ (rest : List Nat),
      parse_message_f fuel (serialize F ++ rest) = .ok (F, (serialize F).length)
  | .SimpleString s, h, fuel, hf, rest => by
    obtain ⟨f, rfl⟩ : ∃ f, fuel = f + 1 := ⟨fuel - 1, by omega⟩
    simp only [wfFrame, Bool.and_eq_true] at h
    have hb : serialize (.SimpleString s) ++ rest = 43 :: ((s ++ crlf) ++ rest) := by
      simp [serialize]
    rw [hb, parse_message_f.eq_def]
    dsimp only
    rw [if_pos rfl, ← hb]
    exact parse_simple_serialize s rest h.1 h.2
  | .BulkString s, h, fuel, hf, rest => by
    obtain ⟨f, rfl⟩ : ∃ f, fuel = f + 1 := ⟨fuel - 1, by omega⟩
    simp only [wfFrame, Bool.and_eq_true, decide_eq_true_eq] at h
    have hb : serialize (.BulkString s) ++ rest =
        36 :: ((natDec (charsCount s) ++ crlf ++ s ++ crlf) ++ rest) := by
      simp [serialize]
    rw [hb, parse_message_f.eq_def]
    dsimp only
    rw [if_neg (by decide), if_neg (by decide), if_pos rfl, ← hb]
    exact parse_bulk_serialize s rest h.1 h.2
  | .NullBulkString, h, fuel, hf, rest => by
    simp [wfFrame] at h
  | .Array xs, h, fuel, hf, rest => by
    obtain ⟨f, rfl⟩ : ∃ f, fuel = f + 1 := ⟨fuel - 1, by omega⟩
    simp only [wfFrame, Bool.and_eq_true, decide_eq_true_eq] at h
    have hfd : costItems xs < f := by
      simp only [cost] at hf
      omega
    have hb : serialize (.Array xs) ++ rest =
        42 :: ((natDec xs.length ++ (crlf ++ serializeList xs)) ++ rest) := by
      simp [serialize]
    rw [hb, parse_message_f.eq_def]
    dsimp only
    rw [if_neg (by decide), if_pos rfl]
    simp only [List.drop_succ_cons, List.drop_zero]
    have hread : read_until_crlf ((natDec xs.length ++ (crlf ++ serializeList xs)) ++ rest) =
        some (natDec xs.length, (natDec xs.length).length + 2) := by
      have hx : (natDec xs.length ++ (crlf ++ serializeList xs)) ++ rest =
          natDec xs.length ++ 13 :: 10 :: (serializeList xs ++ rest) := by
        simp [crlf]
      rw [hx]
      exact read_until_crlf_spec (natDec xs.length) (serializeList xs ++ rest)
        (natDec_no_crlf xs.length)
    rw [hread]
    dsimp only
    rw [parse_int_natDec xs.length h.1]
    dsimp only
    rw [Int.toNat_natCast]
    have hpre : (42 :: (natDec xs.length ++ [13, 10])).length =
        (natDec xs.length).length + 2 + 1 := by
      simp
    have hbuf : 42 :: ((natDec xs.length ++ (crlf ++ serializeList xs)) ++ rest) =
        (42 :: (natDec xs.length ++ [13, 10])) ++ (serializeList xs ++ rest) := by
      simp [crlf]
    rw [hbuf, ← hpre, parse_items_serialize xs h.2 f hfd _ rest]
    dsimp only
    have harith : (42 :: (natDec xs.length ++ [13, 10])).length + (serializeList xs).length =
        (serialize (.Array xs)).length := by
      simp [serialize, crlf]
      omega
    rw [harith]

theorem parse_items_serialize :
    ∀ (xs : List Frame), wfList xs = true → ∀ (fuel : Nat), costItems xs < fuel →
      ∀ (pre rest : List Nat),
        parse_items_f fuel xs.length (pre ++ (serializeList xs ++ rest)) pre.length =
          .ok (xs, pre.length + (serializeList xs).length)
  | [], _, fuel, hf, pre, rest => by
    obtain ⟨g, rfl⟩ : ∃ g, fuel = g + 1 := ⟨fuel - 1, by omega⟩
    rw [show serializeList [] = [] from rfl]
    rw [show ([] : List Frame).length = 0 from rfl]
    rw [parse_items_f.eq_def]
    simp
  | x :: r, h, fuel, hf, pre, rest => by
    obtain ⟨g, rfl⟩ : ∃ g, fuel = g + 1 := ⟨fuel - 1, by omega⟩
    simp only [wfList, Bool.and_eq_true] at h
    have hdx : cost x < g := by
      simp only [costItems] at hf
      omega
    have hdr : costItems r < g := by
      simp only [costItems] at hf
      omega
    rw [show (x :: r).length = r.length + 1 from rfl, parse_items_f.eq_def]
    dsimp only
    have hsl : serializeList (x :: r) = serialize x ++ serializeList r := rfl
    have hdrop : (pre ++ (serializeList (x :: r) ++ rest)).drop pre.length =
        serialize x ++ (serializeList r ++ rest) := by
      rw [List.drop_left]
      rw [hsl, List.append_assoc]
    rw [hdrop, parse_serialize_f x h.1 g hdx (serializeList r ++ rest)]
    dsimp only
    have hbuf : pre ++ (serializeList (x :: r) ++ rest) =
        (pre ++ serialize x) ++ (serializeList r ++ rest) := by
      rw [hsl]
      simp [List.append_assoc]
    have hlen : pre.length + (serialize x).length = (pre ++ serialize x).length := by
      simp
    rw [hbuf, hlen, parse_items_serialize r h.2 g hdr (pre ++ serialize x) rest]
    dsimp only
    rw [hsl]
    simp only [List.length_append]
    congr 2
    omega

end

/-- Round trip at the `parse_message` entry point, with arbitrary trailing
bytes preserved in the reported consumption. -/
theorem parse_message_serialize (F : Frame) (h : wfFrame F = true) (rest : List Nat) :
    parse_message (serialize F ++ rest) = .ok (F, (serialize F).length) := by
  unfold parse_message
  apply parse_serialize_f F h
  have h1 := cost_le_serialize_length F
  simp only [List.length_append]
  omega

/-- C1 counterexample: the round trip does not hold for every frame.  For
`F = SimpleString "a\r\nb"` (bytes `[97, 13, 10, 98]`), `serialize F` is
`"+a\r\nb\r\n"` and `parse_message` stops at the first CRLF, returning
`SimpleString "a"` with only 4 of the 8 bytes consumed. -/
theorem round_trip_fails_on_embedded_crlf :
    parse_message (serialize (Frame.SimpleString [97, 13, 10, 98])) ≠
      .ok (Frame.SimpleString [97, 13, 10, 98],
        (serialize (Frame.SimpleString [97, 13, 10, 98])).length) := by
  decide

/-- C1 (amended): for every frame whose string payloads are ASCII, whose
`SimpleString`s contain no `\r\n` pair, that contains no `NullBulkString`
(the parser has no `-1` case), and whose string/array lengths are below
`2 ^ 63` (automatic for real Rust collections), parsing the serialization
returns exactly the frame together with the full byte length of its
serialization. -/
theorem frame_round_trip (F : Frame) (h : wfFrame F = true) :
    parse_message (serialize F) = .ok (F, (serialize F).length) := by
  have h2 := parse_message_serialize F h []
  rwa [List.append_nil] at h2

/-- Witness for C1's amended round trip at a nested array whose bulk-string
payload contains CRLF bytes. -/
theorem frame_round_trip_wit :
    wfFrame (Frame.Array [Frame.BulkString [97, 13, 10, 98],
        Frame.Array [Frame.SimpleString [111, 107]]]) = true ∧
      parse_message (serialize (Frame.Array [Frame.BulkString [97, 13, 10, 98],
        Frame.Array [Frame.SimpleString [111, 107]]])) =
        .ok (Frame.Array [Frame.BulkString [97, 13, 10, 98],
          Frame.Array [Frame.SimpleString [111, 107]]],
          (serialize (Frame.Array [Frame.BulkString [97, 13, 10, 98],
            Frame.Array [Frame.SimpleString [111, 107]]])).length) :=
  ⟨by decide, frame_round_trip _ (by decide)⟩

/-- C4 counterexample: `"$-1\r\n"` does not parse back to `NullBulkString`
with 5 bytes consumed — `parse_bulk_string` has no `-1` case, so the cast
`-1 as usize` wraps and the slice `buffer[5..4]` panics. -/
theorem null_bulk_parse_not_null :
    parse_message (serialize Frame.NullBulkString) ≠ .ok (Frame.NullBulkString, 5) := by
  decide

/-- C4 (amended): `NullBulkString` serializes to the five bytes `"$-1\r\n"`,
but parsing those bytes panics (wrapped `-1 as usize` makes the payload
slice reversed); it yields neither `NullBulkString` nor an empty
`BulkString` nor any other frame. -/
theorem null_bulk_serialize_parse :
    serialize Frame.NullBulkString = [36, 45, 49, 13, 10] ∧
      parse_message [36, 45, 49, 13, 10] = .error .panicked := by
  decide

/-- Parse loop of `Connection::read_frames` in `connection.rs`: starting
from `consumed` bytes already handled, parse frames from
`buffer[consumed..]` until `consumed_bytes != bytes_read` fails, i.e. until
exactly `buffer.length` bytes are consumed (the buffer holds exactly the
bytes of this read, since the previous call cleared it).  Overshooting the
chunk makes the next `self.buffer[consumed..]` slice panic.  The budget is
one unit per iteration; `read_frames` passes `buffer.length + 1`, enough
because every iteration consumes at least one byte. -/
def frames_loop : Nat → List Nat → Nat → Except PErr (List Frame)
  | 0, _, _ => .error .fuel
  | fuel + 1, buffer, consumed =>
    if consumed = buffer.length then .ok []
    else if buffer.length < consumed then .error .panicked
    else
      match parse_message (buffer.drop consumed) with
      | .error e => .error e
      | .ok (frame, bytes) =>
        match frames_loop fuel buffer (consumed + bytes) with
        | .error e => .error e
        | .ok frames => .ok (frame :: frames)

/-- Mirror of `Connection::read_frames` in `connection.rs` for one socket
read that delivers `chunk` into the (previously cleared) buffer: zero bytes
read means EOF (`none`); otherwise parse frames until the chunk is exactly
exhausted, then clear the buffer.  Bytes of a partially received frame are
not retained — their parse failure propagates as the call's error. -/
def read_frames (chunk : List Nat) : Except PErr (Option (List Frame)) :=
  if chunk.length = 0 then .ok none
  else (frames_loop (chunk.length + 1) chunk 0).map some

/-- The read loop driving `read_frames` (`RedisServer::handle_connection`
in `server.rs`): feed the socket chunks in order, collecting the frames
handed to dispatch, and stop at EOF or on any failed call
(`let Ok(Some(frames)) … else break`). -/
def feed_chunks : List (List Nat) → List Frame
  | [] => []
  | c :: cs =>
    match read_frames c with
    | .ok (some fs) => fs ++ feed_chunks cs
    | _ => []

theorem length_le_serializeList_length (fs : List Frame) :
    fs.length ≤ (serializeList fs).length := by
  induction fs with
  | nil => simp [serializeList]
  | cons x r ih =>
    have := serialize_length_pos x
    simp only [serializeList, List.length_cons, List.length_append]
    omega

theorem frames_loop_serializeList :
    ∀ (fs : List Frame), (∀ F ∈ fs, wfFrame F = true) →
      ∀ (fuel : Nat), fs.length < fuel → ∀ (pre : List Nat),
        frames_loop fuel (pre ++ serializeList fs) pre.length = .ok fs := by
  intro fs
  induction fs with
  | nil =>
    intro _ fuel hf pre
    obtain ⟨g, rfl⟩ : ∃ g, fuel = g + 1 := ⟨fuel - 1, by omega⟩
    simp [frames_loop, serializeList]
  | cons x r ih =>
    intro h fuel hf pre
    obtain ⟨g, rfl⟩ : ∃ g, fuel = g + 1 := ⟨fuel - 1, by omega⟩
    have hx : wfFrame x = true := h x (by simp)
    have hr : ∀ F ∈ r, wfFrame F = true := fun F hF => h F (by simp [hF])
    have hpos := serialize_length_pos x
    rw [frames_loop]
    rw [if_neg (by
      simp only [List.length_append, serializeList, List.length_append]
      omega)]
    rw [if_neg (by
      simp only [List.length_append, serializeList, List.length_append]
      omega)]
    have hdrop : (pre ++ serializeList (x :: r)).drop pre.length =
        serialize x ++ serializeList r := by
      rw [List.drop_left]
      rfl
    rw [hdrop, parse_message_serialize x hx (serializeList r)]
    dsimp only
    have hbuf : pre ++ serializeList (x :: r) = (pre ++ serialize x) ++ serializeList r := by
      show pre ++ (serialize x ++ serializeList r) = _
      rw [List.append_assoc]
    have hlen : pre.length + (serialize x).length = (pre ++ serialize x).length := by
      simp
    rw [hbuf, hlen, ih hr g (by simp at hf; omega) (pre ++ serialize x)]

theorem read_frames_serializeList (fs : List Frame) (hne : fs ≠ [])
    (h : ∀ F ∈ fs, wfFrame F = true) :
    read_frames (serializeList fs) = .ok (some fs) := by
  match fs, hne with
  | x :: r, _ =>
    have hpos := serialize_length_pos x
    rw [read_frames]
    rw [if_neg (by
      simp only [serializeList, List.length_append]
      omega)]
    have := frames_loop_serializeList (x :: r) h ((serializeList (x :: r)).length + 1)
      (by have := length_le_serializeList_length (x :: r); omega) []
    simp only [List.nil_append, List.length_nil] at this
    rw [this]
    rfl

/-- C2 counterexample: splitting one serialized frame across two reads
loses it.  `serialize (SimpleString "a") = "+a\r\n"` fed as the chunks
`["+a", "\r\n"]` emits no frame at all: the first call's parse fails, the
leftover bytes are not retained, and the read loop stops. -/
theorem split_frame_chunks_drop_frames :
    feed_chunks [[43, 97], [13, 10]] ≠ [Frame.SimpleString [97]] := by
  decide

/-- C2 (amended): the read loop emits exactly `F1 … Fk` in order iff the
chunking respects frame boundaries.  For every sequence of non-empty frame
groups (each group round-trippable in the sense of C1's `wfFrame`), feeding
each group's concatenated serialization as one read yields exactly the
concatenated frame list, no byte parsed twice and no frame dropped; a chunk
that ends inside a frame instead fails its whole read and the loop stops,
as the counterexample shows. -/
theorem aligned_chunks_emit_all_frames (css : List (List Frame))
    (h : ∀ fs ∈ css, fs ≠ [] ∧ ∀ F ∈ fs, wfFrame F = true) :
    feed_chunks (css.map serializeList) = css.flatten := by
  induction css with
  | nil => rfl
  | cons fs rest ih =>
    have h1 := h fs (by simp)
    have h2 : ∀ gs ∈ rest, gs ≠ [] ∧ ∀ F ∈ gs, wfFrame F = true :=
      fun gs hgs => h gs (by simp [hgs])
    simp only [List.map_cons, feed_chunks, read_frames_serializeList fs h1.1 h1.2]
    rw [ih h2]
    simp

/-- Witness for C2's amended statement on two aligned chunks, the second
carrying two frames. -/
theorem aligned_chunks_emit_all_frames_wit :
    feed_chunks ([[Frame.SimpleString [97]],
        [Frame.BulkString [98], Frame.SimpleString [99]]].map serializeList) =
      [Frame.SimpleString [97], Frame.BulkString [98], Frame.SimpleString [99]] :=
  aligned_chunks_emit_all_frames
    [[Frame.SimpleString [97]], [Frame.BulkString [98], Frame.SimpleString [99]]]
    (by decide)

/-- Mirror of `DbItem` in `main.rs`: value bytes, the monotonic
`Instant` of insertion (milliseconds), and `expires` in milliseconds
(`0` = no expiry, a `usize`). -/
structure DbItem where
  value : List Nat
  created : Nat
  expires : Nat
deriving DecidableEq

/-- The keyspace `HashMap<String, DbItem>` as an association list whose
entries have pairwise-distinct keys (insert replaces); the list order
stands for the map's unspecified iteration order. -/
abbrev Db := List (List Nat × DbItem)

/-- `HashMap::insert`: replace any entry with the same key. -/
def db_insert (db : Db) (k : List Nat) (item : DbItem) : Db :=
  (k, item) :: db.filter (fun p => decide (p.1 ≠ k))

/-- `HashMap::get`. -/
def db_get (db : Db) (k : List Nat) : Option DbItem :=
  (db.find? (fun p => p.1 == k)).map (fun p => p.2)

/-- Observable effects a handler performs on its connection and on the
replication broadcast channel: `wrote f` is `write_value(f)` (the frame's
serialization sent to the peer), `wroteRaw` is a raw `write`, and
`published f` is a `sender.send(f)` on the broadcast channel.  No handler
in `handlers.rs` ever produces `published` — `handle_set` receives the
sender but never uses it. -/
inductive Eff where
  | wrote (f : Frame)
  | wroteRaw (bytes : List Nat)
  | published (f : Frame)
deriving DecidableEq

/-- Broadcast-channel test on an effect. -/
def is_publish : Eff → Bool
  | .published _ => true
  | _ => false

/-- Mirror of `unpack_bulk_str` in `handlers.rs`. -/
def unpack_bulk_str : Frame → Except PErr (List Nat)
  | .BulkString s => .ok s
  | _ => .error .err

/-- Mirror of `extract_command` in `handlers.rs`: the command name is the
first element of the array (`a.first().unwrap()` panics on an empty
array; a non-bulk first element is an `anyhow` error), the rest are the
arguments. -/
def extract_command : Frame → Except PErr (List Nat × List Frame)
  | .Array a =>
    match a with
    | [] => .error .panicked
    | x :: rest =>
      match unpack_bulk_str x with
      | .error e => .error e
      | .ok s => .ok (s, rest)
  | _ => .error .err

/-- Digit run of Rust `str::parse::<usize>()`: non-empty, all decimal,
value within `usize`. -/
def parse_usize_of (digits : List Nat) : Except PErr Nat :=
  if digits = [] then .error .err
  else if digits.all isDigit then
    if decVal digits ≤ 2 ^ 64 - 1 then .ok (decVal digits) else .error .err
  else .error .err

/-- Rust `str::parse::<usize>()` (used on the `px` argument): an optional
leading `+`, then digits. -/
def parse_usize (s : List Nat) : Except PErr Nat :=
  match s with
  | [] => .error .err
  | c :: rest => if c = 43 then parse_usize_of rest else parse_usize_of s

/-- Rust `args[i]` on a slice: panics when out of bounds. -/
def nth_arg (args : List Frame) (i : Nat) : Except PErr Frame :=
  match args[i]? with
  | some a => .ok a
  | none => .error .panicked

/-- Mirror of `handle_set` in `handlers.rs` (`now` is the `Instant::now()`
of the insertion): `args[0]`/`args[1]` are key and value (`unwrap` panics
on a non-bulk frame), a third argument must be exactly the lowercase bytes
`px` or the handler panics (`panic!("wrong precision name!")`), and the
fourth is parsed as `usize` milliseconds (`unwrap` panics on a parse
error).  The broadcast `sender` the source receives is never used, so no
`published` effect appears. -/
def handle_set (db : Db) (args : List Frame) (now : Nat) : Except PErr (Db × List Eff) :=
  match nth_arg args 0 with
  | .error _ => .error .panicked
  | .ok a0 =>
  match unpack_bulk_str a0 with
  | .error _ => .error .panicked
  | .ok key =>
  match nth_arg args 1 with
  | .error _ => .error .panicked
  | .ok a1 =>
  match unpack_bulk_str a1 with
  | .error _ => .error .panicked
  | .ok value =>
  match
    (if 2 < args.length then
      match nth_arg args 2 with
      | .error _ => .error .panicked
      | .ok a2 =>
      match unpack_bulk_str a2 with
      | .error _ => .error .panicked
      | .ok command_name =>
      if command_name ≠ [112, 120] then .error .panicked
      else
        match nth_arg args 3 with
        | .error _ => .error .panicked
        | .ok a3 =>
        match unpack_bulk_str a3 with
        | .error _ => .error .panicked
        | .ok ms_str =>
        match parse_usize ms_str with
        | .error _ => .error .panicked
        | .ok ms => .ok ms
    else (.ok 0 : Except PErr Nat)) with
  | .error e => .error e
  | .ok expires =>
    .ok (db_insert db key ⟨value, now, expires⟩, [.wrote (.SimpleString [79, 75])])

/-- Mirror of `handle_get` in `handlers.rs`: unwrap the key (panic on a
non-bulk frame), look it up, and treat the entry as absent when
`expires > 0 && elapsed_ms > expires`; the keyspace itself is only read. -/
def handle_get (db : Db) (key : Frame) (now : Nat) : Except PErr (Db × List Eff) :=
  match unpack_bulk_str key with
  | .error _ => .error .panicked
  | .ok k =>
    match db_get db k with
    | some db_item =>
      if 0 < db_item.expires ∧ db_item.expires < now - db_item.created then
        .ok (db, [.wrote .NullBulkString])
      else
        .ok (db, [.wrote (.BulkString db_item.value)])
    | none => .ok (db, [.wrote .NullBulkString])

/-- Mirror of `handle_keys` in `handlers.rs`: reply with an `Array` of
`SimpleString` frames, one per key of the map, in iteration order.  The
dispatcher passes no pattern argument at all. -/
def handle_keys (db : Db) : Except PErr (Db × List Eff) :=
  .ok (db, [.wrote (.Array (db.map (fun p => Frame.SimpleString p.1)))])

/-- Server configuration map (`type Config` in `main.rs`). -/
abbrev Config := List (List Nat × List Nat)

/-- `HashMap::get` on the configuration map. -/
def config_get (config : Config) (k : List Nat) : Option (List Nat) :=
  (config.find? (fun p => p.1 == k)).map (fun p => p.2)

/-- Mirror of `handle_config` in `handlers.rs`: on `GET`, echo the key
frame and reply the configured value (`unwrap` panics when the name is
unknown); any other subcommand replies `NullBulkString`. -/
def handle_config (config : Config) (config_command config_key : Frame) :
    Except PErr (List Eff) :=
  match unpack_bulk_str config_command with
  | .error _ => .error .panicked
  | .ok cmd =>
    if cmd = [71, 69, 84] then
      match unpack_bulk_str config_key with
      | .error _ => .error .panicked
      | .ok name =>
        match config_get config name with
        | none => .error .panicked
        | some v => .ok [.wrote (.Array [config_key, .BulkString v])]
    else .ok [.wrote .NullBulkString]

/-- Mirror of `ReplRole` in `repl.rs`. -/
inductive ReplRole where
  | master
  | slave
deriving DecidableEq

/-- Mirror of `ReplConfig` in `repl.rs`. -/
structure ReplConf where
  role : ReplRole
  master_replid : Option (List Nat)
  master_repl_offset : Option Nat

/-- Mirror of `handle_info` in `handlers.rs`: a `BulkString` of CRLF-joined
lines — the role line alone for a replica, plus `master_replid:`/
`master_repl_offset:` lines for a master (whose absent fields `unwrap` to
panics). -/
def handle_info (rc : ReplConf) : Except PErr (List Eff) :=
  match rc.role with
  | .master =>
    match rc.master_replid, rc.master_repl_offset with
    | some rid, some off =>
      .ok [.wrote (.BulkString
        ([114, 111, 108, 101, 58, 109, 97, 115, 116, 101, 114] ++ crlf ++
         [109, 97, 115, 116, 101, 114, 95, 114, 101, 112, 108, 105, 100, 58] ++ rid ++ crlf ++
         [109, 97, 115, 116, 101, 114, 95, 114, 101, 112, 108, 95, 111, 102, 102, 115,
          101, 116, 58] ++ natDec off))]
    | _, _ => .error .panicked
  | .slave => .ok [.wrote (.BulkString [114, 111, 108, 101, 58, 115, 108, 97, 118, 101])]

/-- The 88-byte empty-snapshot literal of `handle_psync` in `handlers.rs`. -/
def empty_rdb : List Nat :=
  [82, 69, 68, 73, 83, 48, 48, 49, 49, 250, 9, 114, 101, 100, 105, 115, 45, 118, 101, 114,
   5, 55, 46, 50, 46, 48, 250, 10, 114, 101, 100, 105, 115, 45, 98, 105, 116, 115, 192, 64,
   250, 5, 99, 116, 105, 109, 101, 194, 109, 8, 188, 101, 250, 8, 117, 115, 101, 100, 45,
   109, 101, 109, 194, 176, 196, 16, 0, 250, 8, 97, 111, 102, 45, 98, 97, 115, 101, 192, 0,
   255, 240, 110, 59, 254, 192, 255, 90, 162]

/-- Mirror of `handle_psync` in `handlers.rs`: reply
`+FULLRESYNC <replid> 0`, then the raw `$88\r\n` header and the raw
88 snapshot bytes (no trailing CRLF). -/
def handle_psync (rc : ReplConf) : Except PErr (List Eff) :=
  match rc.master_replid with
  | none => .error .panicked
  | some rid =>
    .ok [.wrote (.SimpleString ([70, 85, 76, 76, 82, 69, 83, 89, 78, 67, 32] ++ rid ++ [32, 48])),
      .wroteRaw (36 :: natDec empty_rdb.length ++ crlf),
      .wroteRaw empty_rdb]

/-- ASCII uppercasing, the effect of Rust `str::to_uppercase()` on the
ASCII command names matched by the dispatcher. -/
def to_uppercase (s : List Nat) : List Nat :=
  s.map (fun b => if 97 ≤ b ∧ b ≤ 122 then b - 32 else b)

/-- The dispatch `match` of `handle_connection` in `handlers.rs` for one
received frame: extract the command (`unwrap` panics on a malformed
frame), uppercase it, and run the matching handler; an unknown command
panics (`panic!("Cannot handle command …")`).  The result is the keyspace
afterwards plus the connection/broadcast effects. -/
def handle_command (db : Db) (config : Config) (rc : ReplConf) (v : Frame) (now : Nat) :
    Except PErr (Db × List Eff) :=
  match extract_command v with
  | .error _ => .error .panicked
  | .ok (command, args) =>
    let c := to_uppercase command
    if c = [80, 73, 78, 71] then .ok (db, [.wrote (.SimpleString [80, 79, 78, 71])])
    else if c = [69, 67, 72, 79] then
      match args.head? with
      | none => .error .panicked
      | some what => .ok (db, [.wrote what])
    else if c = [83, 69, 84] then handle_set db args now
    else if c = [71, 69, 84] then
      match nth_arg args 0 with
      | .error _ => .error .panicked
      | .ok a0 => handle_get db a0 now
    else if c = [67, 79, 78, 70, 73, 71] then
      match nth_arg args 0, nth_arg args 1 with
      | .ok a0, .ok a1 =>
        (match handle_config config a0 a1 with
         | .error e => .error e
         | .ok effs => .ok (db, effs))
      | _, _ => .error .panicked
    else if c = [75, 69, 89, 83] then handle_keys db
    else if c = [73, 78, 70, 79] then
      match handle_info rc with
      | .error e => .error e
      | .ok effs => .ok (db, effs)
    else if c = [82, 69, 80, 76, 67, 79, 78, 70] then
      .ok (db, [.wrote (.SimpleString [79, 75])])
    else if c = [80, 83, 89, 78, 67] then
      match handle_psync rc with
      | .error e => .error e
      | .ok effs => .ok (db, effs)
    else .error .panicked

theorem parse_usize_natDec (T : Nat) (h : T < 2 ^ 64) : parse_usize (natDec T) = .ok T := by
  obtain ⟨c, rest, hcr⟩ : ∃ c rest, natDec T = c :: rest := by
    match hne : natDec T with
    | [] => exact absurd hne (natDec_ne_nil T)
    | c :: rest => exact ⟨c, rest, rfl⟩
  have hc := natDec_digits T c (by rw [hcr]; simp)
  rw [hcr, parse_usize, if_neg (by omega : ¬ c = 43), ← hcr]
  rw [parse_usize_of, if_neg (natDec_ne_nil T)]
  have hall : (natDec T).all isDigit = true := by
    apply List.all_eq_true.mpr
    intro b hb
    have := natDec_digits T b hb
    simp only [isDigit, Bool.and_eq_true, decide_eq_true_eq]
    omega
  rw [if_pos hall, decVal_natDec T, if_pos (by omega)]

theorem db_get_insert_self (db : Db) (k : List Nat) (item : DbItem) :
    db_get (db_insert db k item) k = some item := by
  simp [db_get, db_insert, List.find?]

theorem db_get_mem (db : Db) (k : List Nat) (item : DbItem) (h : db_get db k = some item) :
    k ∈ db.map (fun p => p.1) := by
  unfold db_get at h
  rcases Option.map_eq_some'.mp h with ⟨p, hfind, _⟩
  have hp := List.find?_some hfind
  have hmem := List.mem_of_find?_eq_some hfind
  simp only [beq_iff_eq] at hp
  subst hp
  exact List.mem_map_of_mem (fun q => q.1) hmem

theorem handle_set_px_ok (db : Db) (k v : List Nat) (T now : Nat) (hT64 : T < 2 ^ 64) :
    handle_set db
        [.BulkString k, .BulkString v, .BulkString [112, 120], .BulkString (natDec T)] now =
      .ok (db_insert db k ⟨v, now, T⟩, [.wrote (.SimpleString [79, 75])]) := by
  simp [handle_set, nth_arg, unpack_bulk_str, parse_usize_natDec T hT64]

theorem handle_set_wrong_px (db : Db) (k v w ms : List Nat) (now : Nat) (hw : w ≠ [112, 120]) :
    handle_set db [.BulkString k, .BulkString v, .BulkString w, .BulkString ms] now =
      .error .panicked := by
  simp [handle_set, nth_arg, unpack_bulk_str, hw]

/-- C3: after `SET k v px T` with `T > 0` at monotonic instant `t0`, a
`GET k` at instant `now` replies `BulkString v` while `now − t0 ≤ T`,
replies `NullBulkString` once `now − t0 > T`, and an entry stored with
`expires = 0` is never treated as expired (the bound `T < 2 ^ 64` is the
`usize` range of the parsed `px` argument). -/
theorem set_px_get_expiry (db : Db) (k v : List Nat) (T t0 now : Nat)
    (hT : 0 < T) (hT64 : T < 2 ^ 64) :
    handle_set db
        [.BulkString k, .BulkString v, .BulkString [112, 120], .BulkString (natDec T)] t0 =
      .ok (db_insert db k ⟨v, t0, T⟩, [.wrote (.SimpleString [79, 75])]) ∧
    (now - t0 ≤ T →
      handle_get (db_insert db k ⟨v, t0, T⟩) (.BulkString k) now =
        .ok (db_insert db k ⟨v, t0, T⟩, [.wrote (.BulkString v)])) ∧
    (T < now - t0 →
      handle_get (db_insert db k ⟨v, t0, T⟩) (.BulkString k) now =
        .ok (db_insert db k ⟨v, t0, T⟩, [.wrote .NullBulkString])) ∧
    (∀ (db2 : Db) (item : DbItem), db_get db2 k = some item → item.expires = 0 →
      handle_get db2 (.BulkString k) now = .ok (db2, [.wrote (.BulkString item.value)])) := by
  refine ⟨handle_set_px_ok db k v T t0 hT64, ?_, ?_, ?_⟩
  · intro hle
    simp only [handle_get, unpack_bulk_str, db_get_insert_self]
    rw [if_neg (by simp only [not_and]; intro; omega)]
  · intro hgt
    simp only [handle_get, unpack_bulk_str, db_get_insert_self]
    rw [if_pos ⟨hT, hgt⟩]
  · intro db2 item hget h0
    simp only [handle_get, unpack_bulk_str]
    rw [hget]
    dsimp only
    rw [if_neg (by omega)]

/-- Witness for C3 at `SET k v px 100` stored at instant 5, read at
instants 105 (still live) and 106 (expired). -/
theorem set_px_get_expiry_wit :
    handle_get (db_insert [] [107] ⟨[118], 5, 100⟩) (.BulkString [107]) 105 =
      .ok (db_insert [] [107] ⟨[118], 5, 100⟩, [.wrote (.BulkString [118])]) ∧
    handle_get (db_insert [] [107] ⟨[118], 5, 100⟩) (.BulkString [107]) 106 =
      .ok (db_insert [] [107] ⟨[118], 5, 100⟩, [.wrote .NullBulkString]) :=
  ⟨(set_px_get_expiry [] [107] [118] 100 5 105 (by decide) (by decide)).2.1 (by decide),
   (set_px_get_expiry [] [107] [118] 100 5 106 (by decide) (by decide)).2.2.1 (by decide)⟩

/-- C9: `handle_get` never changes the key-to-entry mapping, and a lazily
expired entry is reported absent while remaining physically stored, so
`KEYS` still lists it. -/
theorem get_preserves_db :
    (∀ (db : Db) (key : Frame) (now : Nat) (r : Db × List Eff),
      handle_get db key now = .ok r → r.1 = db) ∧
    (∀ (db : Db) (k : List Nat) (item : DbItem) (now : Nat),
      db_get db k = some item → 0 < item.expires → item.expires < now - item.created →
        handle_get db (.BulkString k) now = .ok (db, [.wrote .NullBulkString]) ∧
        Frame.SimpleString k ∈ db.map (fun p => Frame.SimpleString p.1) ∧
        handle_keys db =
          .ok (db, [.wrote (.Array (db.map (fun p => Frame.SimpleString p.1)))])) := by
  constructor
  · intro db key now r h
    match key with
    | .SimpleString _ => simp [handle_get, unpack_bulk_str] at h
    | .Array _ => simp [handle_get, unpack_bulk_str] at h
    | .NullBulkString => simp [handle_get, unpack_bulk_str] at h
    | .BulkString s =>
      simp only [handle_get, unpack_bulk_str] at h
      cases hdb : db_get db s with
      | none =>
        rw [hdb] at h
        dsimp only at h
        cases h
        rfl
      | some item =>
        rw [hdb] at h
        dsimp only at h
        by_cases hc : 0 < item.expires ∧ item.expires < now - item.created
        · rw [if_pos hc] at h
          cases h
          rfl
        · rw [if_neg hc] at h
          cases h
          rfl
  · intro db k item now hget h0 hexp
    refine ⟨?_, ?_, rfl⟩
    · simp only [handle_get, unpack_bulk_str]
      rw [hget]
      dsimp only
      rw [if_pos ⟨h0, hexp⟩]
    · have := db_get_mem db k item hget
      rcases List.mem_map.mp this with ⟨p, hp, hpk⟩
      exact List.mem_map.mpr ⟨p, hp, by rw [hpk]⟩

/-- Witness for C9 on a one-entry keyspace whose entry has been lazily
expired (stored at 0 with `px 100`, read at 200). -/
theorem get_preserves_db_wit :
    handle_get [([107], ⟨[118], 0, 100⟩)] (.BulkString [107]) 200 =
      .ok ([([107], ⟨[118], 0, 100⟩)], [.wrote .NullBulkString]) ∧
    Frame.SimpleString [107] ∈
      ([([107], (⟨[118], 0, 100⟩ : DbItem))].map (fun p => Frame.SimpleString p.1)) ∧
    handle_keys [([107], ⟨[118], 0, 100⟩)] =
      .ok ([([107], ⟨[118], 0, 100⟩)],
        [.wrote (.Array ([([107], (⟨[118], 0, 100⟩ : DbItem))].map
          (fun p => Frame.SimpleString p.1)))]) :=
  (get_preserves_db).2 [([107], ⟨[118], 0, 100⟩)] [107] ⟨[118], 0, 100⟩ 200
    (by decide) (by decide) (by decide)

/-- C5 counterexample: with the server role `Primary` (master replication
state), a dispatched `SET` commits the mutation and replies `+OK`, but
publishes nothing on the broadcast channel — the effect list contains no
`published` entry, where the claim requires the original command frame to
be republished. -/
theorem set_publishes_nothing :
    handle_command [] [] ⟨.master, some [97], some 0⟩
        (.Array [.BulkString [83, 69, 84], .BulkString [107], .BulkString [118]]) 0 =
      .ok ([([107], ⟨[118], 0, 0⟩)], [.wrote (.SimpleString [79, 75])]) ∧
    ([Eff.wrote (.SimpleString [79, 75])].filter is_publish) = [] := by
  decide

theorem handle_set_effects (db : Db) (args : List Frame) (now : Nat) (r : Db × List Eff)
    (h : handle_set db args now = .ok r) : r.2 = [.wrote (.SimpleString [79, 75])] := by
  unfold handle_set at h
  repeat' split at h
  all_goals cases h
  all_goals rfl

theorem handle_get_effects (db : Db) (key : Frame) (now : Nat) (r : Db × List Eff)
    (h : handle_get db key now = .ok r) : r.2.filter is_publish = [] := by
  unfold handle_get at h
  repeat' split at h
  all_goals cases h
  all_goals rfl

theorem handle_config_effects (config : Config) (a b : Frame) (effs : List Eff)
    (h : handle_config config a b = .ok effs) : effs.filter is_publish = [] := by
  unfold handle_config at h
  repeat' split at h
  all_goals cases h
  all_goals rfl

theorem handle_info_effects (rc : ReplConf) (effs : List Eff)
    (h : handle_info rc = .ok effs) : effs.filter is_publish = [] := by
  unfold handle_info at h
  repeat' split at h
  all_goals cases h
  all_goals rfl

theorem handle_psync_effects (rc : ReplConf) (effs : List Eff)
    (h : handle_psync rc = .ok effs) : effs.filter is_publish = [] := by
  unfold handle_psync at h
  repeat' split at h
  all_goals cases h
  all_goals rfl

/-- C5 (amended): no dispatched command — `SET` included — ever publishes
a frame on the replication broadcast channel in this code: `handle_set`
receives the sender but never sends on it, and non-write handlers never
touch it. -/
theorem no_command_publishes (db : Db) (config : Config) (rc : ReplConf) (v : Frame)
    (now : Nat) (r : Db × List Eff) (h : handle_command db config rc v now = .ok r) :
    r.2.filter is_publish = [] := by
  unfold handle_command at h
  cases hex : extract_command v with
  | error e =>
    rw [hex] at h
    exact absurd h (by simp)
  | ok ca =>
    obtain ⟨command, args⟩ := ca
    rw [hex] at h
    dsimp only at h
    by_cases h1 : to_uppercase command = [80, 73, 78, 71]
    · rw [if_pos h1] at h
      cases h
      rfl
    rw [if_neg h1] at h
    by_cases h2 : to_uppercase command = [69, 67, 72, 79]
    · rw [if_pos h2] at h
      cases hh : args.head? with
      | none => rw [hh] at h; exact absurd h (by simp)
      | some what =>
        rw [hh] at h
        cases h
        rfl
    rw [if_neg h2] at h
    by_cases h3 : to_uppercase command = [83, 69, 84]
    · rw [if_pos h3] at h
      rw [handle_set_effects db args now r h]
      rfl
    rw [if_neg h3] at h
    by_cases h4 : to_uppercase command = [71, 69, 84]
    · rw [if_pos h4] at h
      cases ha : nth_arg args 0 with
      | error e => rw [ha] at h; exact absurd h (by simp)
      | ok a0 =>
        rw [ha] at h
        exact handle_get_effects db a0 now r h
    rw [if_neg h4] at h
    by_cases h5 : to_uppercase command = [67, 79, 78, 70, 73, 71]
    · rw [if_pos h5] at h
      cases ha : nth_arg args 0 with
      | error e => rw [ha] at h; exact absurd h (by simp)
      | ok a0 =>
        cases hb : nth_arg args 1 with
        | error e => rw [ha, hb] at h; exact absurd h (by simp)
        | ok a1 =>
          rw [ha, hb] at h
          dsimp only at h
          cases hc : handle_config config a0 a1 with
          | error e => rw [hc] at h; exact absurd h (by simp)
          | ok effs =>
            rw [hc] at h
            cases h
            exact handle_config_effects config a0 a1 effs hc
    rw [if_neg h5] at h
    by_cases h6 : to_uppercase command = [75, 69, 89, 83]
    · rw [if_pos h6] at h
      cases h
      rfl
    rw [if_neg h6] at h
    by_cases h7 : to_uppercase command = [73, 78, 70, 79]
    · rw [if_pos h7] at h
      cases hc : handle_info rc with
      | error e => rw [hc] at h; exact absurd h (by simp)
      | ok effs =>
        rw [hc] at h
        cases h
        exact handle_info_effects rc effs hc
    rw [if_neg h7] at h
    by_cases h8 : to_uppercase command = [82, 69, 80, 76, 67, 79, 78, 70]
    · rw [if_pos h8] at h
      cases h
      rfl
    rw [if_neg h8] at h
    by_cases h9 : to_uppercase command = [80, 83, 89, 78, 67]
    · rw [if_pos h9] at h
      cases hc : handle_psync rc with
      | error e => rw [hc] at h; exact absurd h (by simp)
      | ok effs =>
        rw [hc] at h
        cases h
        exact handle_psync_effects rc effs hc
    rw [if_neg h9] at h
    exact absurd h (by simp)

/-- Witness for C5's amended statement at a concrete `SET` dispatched with
`Primary` role. -/
theorem no_command_publishes_wit :
    (([([107], (⟨[118], 0, 0⟩ : DbItem))], [Eff.wrote (.SimpleString [79, 75])]) :
        Db × List Eff).2.filter is_publish = [] :=
  no_command_publishes [] [] ⟨.master, some [97], some 0⟩
    (.Array [.BulkString [83, 69, 84], .BulkString [107], .BulkString [118]]) 0 _ (by decide)

/-- C6 counterexample: `SET k v PX 100` (uppercase `PX`) does not reply
the protocol error frame `-ERR syntax\r\n` and continue — `handle_set`
panics (`panic!("wrong precision name!")`), writing nothing and killing
the connection task; so the fourth token is not matched case-insensitively
and no error frame exists. -/
theorem set_uppercase_px_panics :
    handle_set []
        [.BulkString [107], .BulkString [118], .BulkString [80, 88], .BulkString [49, 48, 48]]
        0 =
      .error .panicked := by
  decide

/-- C6 (amended): a fourth `SET` token differing byte-for-byte from the
lowercase string `px` makes the handler panic (no reply is written and the
connection task dies); exactly `px` is accepted and stores the parsed
expiry. -/
theorem set_px_exact_lowercase :
    (∀ (db : Db) (k v w ms : List Nat) (now : Nat), w ≠ [112, 120] →
      handle_set db [.BulkString k, .BulkString v, .BulkString w, .BulkString ms] now =
        .error .panicked) ∧
    (∀ (db : Db) (k v : List Nat) (T now : Nat), T < 2 ^ 64 →
      handle_set db
          [.BulkString k, .BulkString v, .BulkString [112, 120], .BulkString (natDec T)] now =
        .ok (db_insert db k ⟨v, now, T⟩, [.wrote (.SimpleString [79, 75])])) :=
  ⟨fun db k v w ms now hw => handle_set_wrong_px db k v w ms now hw,
   fun db k v T now hT64 => handle_set_px_ok db k v T now hT64⟩

/-- Witness for C6's amended statement: uppercase `PX` panics, lowercase
`px` is accepted. -/
theorem set_px_exact_lowercase_wit :
    handle_set []
        [.BulkString [107], .BulkString [118], .BulkString [80, 88], .BulkString [49]] 0 =
      .error .panicked ∧
    handle_set []
        [.BulkString [107], .BulkString [118], .BulkString [112, 120],
          .BulkString (natDec 100)] 7 =
      .ok (db_insert [] [107] ⟨[118], 7, 100⟩, [.wrote (.SimpleString [79, 75])]) :=
  ⟨(set_px_exact_lowercase).1 [] [107] [118] [80, 88] [49] 0 (by decide),
   (set_px_exact_lowercase).2 [] [107] [118] 100 7 (by decide)⟩

/-- C8 counterexample: on a one-key keyspace, `KEYS` replies an `Array`
whose element is a `SimpleString`, not the `BulkString` the claim
requires. -/
theorem keys_reply_not_bulk :
    handle_keys [([97], ⟨[98], 0, 0⟩)] =
      .ok ([([97], ⟨[98], 0, 0⟩)], [.wrote (.Array [.SimpleString [97]])]) ∧
    Frame.SimpleString [97] ≠ Frame.BulkString [97] := by
  decide

/-- C8 (amended): for every keyspace state, `KEYS` replies an `Array` of
`SimpleString` frames, one per key currently in the map (in iteration
order), and the dispatcher invokes it regardless of any pattern argument
supplied. -/
theorem keys_reply_simple_strings :
    (∀ db : Db,
      handle_keys db =
        .ok (db, [.wrote (.Array (db.map (fun p => Frame.SimpleString p.1)))])) ∧
    (∀ (db : Db) (config : Config) (rc : ReplConf) (args : List Frame) (now : Nat),
      handle_command db config rc (.Array (.BulkString [75, 69, 89, 83] :: args)) now =
        .ok (db, [.wrote (.Array (db.map (fun p => Frame.SimpleString p.1)))])) := by
  constructor
  · intro db
    rfl
  · intro db config rc args now
    show handle_command db config rc (.Array (.BulkString [75, 69, 89, 83] :: args)) now = _
    rw [handle_command]
    rw [show extract_command (.Array (.BulkString [75, 69, 89, 83] :: args)) =
      .ok ([75, 69, 89, 83], args) from rfl]
    dsimp only
    rw [show to_uppercase [75, 69, 89, 83] = [75, 69, 89, 83] from rfl]
    rw [if_neg (by decide), if_neg (by decide), if_neg (by decide), if_neg (by decide),
      if_neg (by decide), if_pos rfl]
    rfl

/-- tokio `read_u8` on the remaining snapshot bytes: one byte, or an I/O
EOF error. -/
def read_u8 : List Nat → Except PErr (Nat × List Nat)
  | [] => .error .err
  | b :: r => .ok (b, r)

/-- tokio `read_u64` — **big-endian** — on the remaining snapshot bytes. -/
def read_u64be : List Nat → Except PErr (Nat × List Nat)
  | b0 :: b1 :: b2 :: b3 :: b4 :: b5 :: b6 :: b7 :: r =>
    .ok (((((((b0 * 256 + b1) * 256 + b2) * 256 + b3) * 256 + b4) * 256 + b5) * 256 + b6)
      * 256 + b7, r)
  | _ => .error .err

/-- tokio `read_u32` — big-endian — on the remaining snapshot bytes. -/
def read_u32be : List Nat → Except PErr (Nat × List Nat)
  | b0 :: b1 :: b2 :: b3 :: r => .ok (((b0 * 256 + b1) * 256 + b2) * 256 + b3, r)
  | _ => .error .err

/-- tokio `read_until(delim, ..)`: consume bytes up to and including the
first `delim`, or everything at EOF; the section parser ignores the bytes
read, so only the remaining input is returned. -/
def read_until_byte (delim : Nat) : List Nat → List Nat
  | [] => []
  | b :: r => if b = delim then r else read_until_byte delim r

/-- Mirror of `parse_size_encoding` in `db.rs`: dispatch on the top two
bits of the first byte — `00`: low six bits; `01`: low six bits then one
more byte, big-endian; `10`: the next **three** bytes as
`u32::from_be_bytes([b0, b1, b2, 0])` (the source reads only three bytes
and pads a low zero); `11`: an `anyhow` error. -/
def parse_size_encoding (input : List Nat) : Except PErr (Nat × List Nat) :=
  match read_u8 input with
  | .error e => .error e
  | .ok (encode_pattern, r) =>
    match encode_pattern / 64 with
    | 0 => .ok (encode_pattern % 64, r)
    | 1 =>
      match read_u8 r with
      | .error e => .error e
      | .ok (b1, r1) => .ok ((encode_pattern % 64) * 256 + b1, r1)
    | 2 =>
      match r with
      | b0 :: b1 :: b2 :: r3 => .ok (((b0 * 256 + b1) * 256 + b2) * 256, r3)
      | _ => .error .err
    | _ => .error .err

/-- Mirror of `decode_string` in `db.rs`: a size-encoded length, then
exactly that many bytes (`read_exact` fails at EOF), decoded by
`String::from_utf8` (`?` propagates invalid UTF-8). -/
def decode_string (input : List Nat) : Except PErr (List Nat × List Nat) :=
  match parse_size_encoding input with
  | .error e => .error e
  | .ok (length, r) =>
    if length ≤ r.length then
      if utf8Valid (r.take length) then .ok (r.take length, r.drop length)
      else .error .err
    else .error .err

/-- Wrapping `usize` subtraction: the release-build behavior of the
source's unchecked `num_kvs - num_kvs_with_expiry` (both operands are
below `2 ^ 64`). -/
def usize_sub (a b : Nat) : Nat := (a + 2 ^ 64 - b) % 2 ^ 64

/-- First entry loop of `parse_database_section` in `db.rs`: `count`
entries without expiry, each a value-type byte, a string key and a string
value, inserted with `expires = 0` and `created = now`. -/
def read_plain_entries (now : Nat) : Nat → Db → List Nat → Except PErr (Db × List Nat)
  | 0, acc, input => .ok (acc, input)
  | count + 1, acc, input =>
    match read_u8 input with
    | .error e => .error e
    | .ok (_, r0) =>
      match decode_string r0 with
      | .error e => .error e
      | .ok (key, r1) =>
        match decode_string r1 with
        | .error e => .error e
        | .ok (value, r2) =>
          read_plain_entries now count (db_insert acc key ⟨value, now, 0⟩) r2

/-- Second entry loop of `parse_database_section` in `db.rs`: `count`
entries with expiry.  Marker `0xFC` reads the next 8 bytes with tokio's
big-endian `read_u64`; `0xFD` reads 4 bytes with `read_u32`; any other
marker is an `anyhow` error (`"invalid expiry type"`).  The value goes
into `expires` unchanged (`expiry as usize`). -/
def read_expiry_entries (now : Nat) : Nat → Db → List Nat → Except PErr (Db × List Nat)
  | 0, acc, input => .ok (acc, input)
  | count + 1, acc, input =>
    match read_u8 input with
    | .error e => .error e
    | .ok (expiry_type, r0) =>
      match
        (if expiry_type = 252 then read_u64be r0
         else if expiry_type = 253 then read_u32be r0
         else .error .err) with
      | .error e => .error e
      | .ok (expiry, r1) =>
        match read_u8 r1 with
        | .error e => .error e
        | .ok (_, r2) =>
          match decode_string r2 with
          | .error e => .error e
          | .ok (key, r3) =>
            match decode_string r3 with
            | .error e => .error e
            | .ok (value, r4) =>
              read_expiry_entries now count (db_insert acc key ⟨value, now, expiry⟩) r4

/-- Mirror of `parse_database_section` in `db.rs`: skip the metadata
prelude through `0xFB`, read the total count `N` and the with-expiry count
`M`, then `N - M` (unchecked `usize` subtraction) plain entries followed
by `M` expiry entries. -/
def parse_database_section (now : Nat) (input : List Nat) : Except PErr (Db × List Nat) :=
  match parse_size_encoding (read_until_byte 251 input) with
  | .error e => .error e
  | .ok (num_kvs, r1) =>
    match parse_size_encoding r1 with
    | .error e => .error e
    | .ok (num_kvs_with_expiry, r2) =>
      match read_plain_entries now (usize_sub num_kvs num_kvs_with_expiry) [] r2 with
      | .error e => .error e
      | .ok (acc, r3) => read_expiry_entries now num_kvs_with_expiry acc r3

/-- C7: evaluation of the snapshot reader at a section whose single expiry
entry carries marker `0xFC` followed by `01 00 00 00 00 00 00 00` — the
**little-endian** encoding of 1 ms.  The code stores `expires =
72057594037927936 = 2 ^ 56` (tokio's `read_u64` is big-endian), not the 1
the claim requires; the `0xFD` 4-byte branch and the failure on any other
marker byte behave as claimed. -/
theorem expiry_fc_read_big_endian :
    parse_database_section 0 [251, 1, 1, 252, 1, 0, 0, 0, 0, 0, 0, 0, 0, 1, 97, 1, 98] =
      .ok ([([97], ⟨[98], 0, 72057594037927936⟩)], []) ∧
    (72057594037927936 : Nat) ≠ 1 ∧
    parse_database_section 0 [251, 1, 1, 253, 0, 0, 0, 7, 0, 1, 97, 1, 98] =
      .ok ([([97], ⟨[98], 0, 7⟩)], []) ∧
    parse_database_section 0 [251, 1, 1, 250] = .error .err :=
  ⟨by decide, by decide, by decide, by decide⟩

/-- Single-byte size encoding (top bits `00`) of a length at most 63,
followed by the string bytes. -/
def enc_str (s : List Nat) : List Nat := s.length :: s

/-- Encoding of one entry without expiry: value-type byte `0`, key,
value. -/
def enc_plain (kv : List Nat × List Nat) : List Nat := 0 :: (enc_str kv.1 ++ enc_str kv.2)

/-- Big-endian 8-byte encoding of `e < 2 ^ 64` (what tokio's `read_u64`
reads back as `e`). -/
def be64 (e : Nat) : List Nat :=
  [e / 2 ^ 56 % 256, e / 2 ^ 48 % 256, e / 2 ^ 40 % 256, e / 2 ^ 32 % 256,
   e / 2 ^ 24 % 256, e / 2 ^ 16 % 256, e / 2 ^ 8 % 256, e % 256]

/-- Encoding of one entry with expiry: marker `0xFC`, 8 timestamp bytes,
value-type byte `0`, key, value. -/
def enc_expiry (t : Nat × List Nat × List Nat) : List Nat :=
  252 :: (be64 t.1 ++ 0 :: (enc_str t.2.1 ++ enc_str t.2.2))

/-- A database section: prelude sentinel `0xFB`, total count `N`,
with-expiry count `M`, then the `N − M` plain entries and the `M` expiry
entries. -/
def enc_section (plains : List (List Nat × List Nat))
    (exps : List (Nat × List Nat × List Nat)) : List Nat :=
  251 :: (plains.length + exps.length) :: exps.length ::
    ((plains.map enc_plain).flatten ++ (exps.map enc_expiry).flatten)

/-- The map the plain-entry loop is expected to build. -/
def load_plain (now : Nat) (acc : Db) (kvs : List (List Nat × List Nat)) : Db :=
  kvs.foldl (fun a kv => db_insert a kv.1 ⟨kv.2, now, 0⟩) acc

/-- The map the expiry-entry loop is expected to build. -/
def load_expiry (now : Nat) (acc : Db) (ts : List (Nat × List Nat × List Nat)) : Db :=
  ts.foldl (fun a t => db_insert a t.2.1 ⟨t.2.2, now, t.1⟩) acc

theorem parse_size_single (s : Nat) (r : List Nat) (h : s ≤ 63) :
    parse_size_encoding (s :: r) = .ok (s, r) := by
  unfold parse_size_encoding read_u8
  dsimp only
  rw [Nat.div_eq_of_lt (by omega : s < 64)]
  dsimp only
  rw [Nat.mod_eq_of_lt (by omega : s < 64)]

theorem decode_string_enc (s r : List Nat) (hl : s.length ≤ 63) (ha : ascii s = true) :
    decode_string (enc_str s ++ r) = .ok (s, r) := by
  show decode_string (s.length :: (s ++ r)) = _
  unfold decode_string
  rw [parse_size_single s.length (s ++ r) hl]
  dsimp only
  rw [if_pos (by simp only [List.length_append]; omega), List.take_left s r,
    if_pos (utf8Valid_of_ascii ha), List.drop_left s r]

theorem read_u64be_be64 (e : Nat) (r : List Nat) (h : e < 2 ^ 64) :
    read_u64be (be64 e ++ r) = .ok (e, r) := by
  have key : ((((((e / 2 ^ 56 % 256 * 256 + e / 2 ^ 48 % 256) * 256 + e / 2 ^ 40 % 256) * 256 +
      e / 2 ^ 32 % 256) * 256 + e / 2 ^ 24 % 256) * 256 + e / 2 ^ 16 % 256) * 256 +
      e / 2 ^ 8 % 256) * 256 + e % 256 = e := by
    omega
  calc read_u64be (be64 e ++ r) =
      .ok (((((((e / 2 ^ 56 % 256 * 256 + e / 2 ^ 48 % 256) * 256 + e / 2 ^ 40 % 256) * 256 +
        e / 2 ^ 32 % 256) * 256 + e / 2 ^ 24 % 256) * 256 + e / 2 ^ 16 % 256) * 256 +
        e / 2 ^ 8 % 256) * 256 + e % 256, r) := rfl
    _ = .ok (e, r) := by rw [key]

theorem read_plain_entries_enc (now : Nat) :
    ∀ (kvs : List (List Nat × List Nat)),
      (∀ kv ∈ kvs, kv.1.length ≤ 63 ∧ ascii kv.1 = true ∧
        kv.2.length ≤ 63 ∧ ascii kv.2 = true) →
      ∀ (acc : Db) (rest : List Nat),
        read_plain_entries now kvs.length acc ((kvs.map enc_plain).flatten ++ rest) =
          .ok (load_plain now acc kvs, rest) := by
  intro kvs
  induction kvs with
  | nil =>
    intro _ acc rest
    simp [read_plain_entries, load_plain]
  | cons kv kvs ih =>
    intro h acc rest
    obtain ⟨h1, h2, h3, h4⟩ := h kv (by simp)
    have hr : ∀ kv' ∈ kvs, kv'.1.length ≤ 63 ∧ ascii kv'.1 = true ∧
        kv'.2.length ≤ 63 ∧ ascii kv'.2 = true :=
      fun kv' hk => h kv' (List.mem_cons_of_mem kv hk)
    have hshape : ((kv :: kvs).map enc_plain).flatten ++ rest =
        0 :: (enc_str kv.1 ++ (enc_str kv.2 ++ ((kvs.map enc_plain).flatten ++ rest))) := by
      simp [enc_plain, List.append_assoc]
    rw [show (kv :: kvs).length = kvs.length + 1 from rfl, hshape, read_plain_entries]
    dsimp only [read_u8]
    rw [decode_string_enc kv.1 _ h1 h2]
    dsimp only
    rw [decode_string_enc kv.2 _ h3 h4]
    dsimp only
    rw [ih hr (db_insert acc kv.1 ⟨kv.2, now, 0⟩) rest]
    rfl

theorem read_expiry_entries_enc (now : Nat) :
    ∀ (ts : List (Nat × List Nat × List Nat)),
      (∀ t ∈ ts, t.1 < 2 ^ 64 ∧ t.2.1.length ≤ 63 ∧ ascii t.2.1 = true ∧
        t.2.2.length ≤ 63 ∧ ascii t.2.2 = true) →
      ∀ (acc : Db) (rest : List Nat),
        read_expiry_entries now ts.length acc ((ts.map enc_expiry).flatten ++ rest) =
          .ok (load_expiry now acc ts, rest) := by
  intro ts
  induction ts with
  | nil =>
    intro _ acc rest
    simp [read_expiry_entries, load_expiry]
  | cons t ts ih =>
    intro h acc rest
    obtain ⟨h0, h1, h2, h3, h4⟩ := h t (by simp)
    have hr : ∀ t' ∈ ts, t'.1 < 2 ^ 64 ∧ t'.2.1.length ≤ 63 ∧ ascii t'.2.1 = true ∧
        t'.2.2.length ≤ 63 ∧ ascii t'.2.2 = true :=
      fun t' hk => h t' (List.mem_cons_of_mem t hk)
    have hshape : ((t :: ts).map enc_expiry).flatten ++ rest =
        252 :: (be64 t.1 ++
          0 :: (enc_str t.2.1 ++ (enc_str t.2.2 ++ ((ts.map enc_expiry).flatten ++ rest)))) := by
      simp [enc_expiry, List.append_assoc]
    rw [show (t :: ts).length = ts.length + 1 from rfl, hshape, read_expiry_entries]
    dsimp only [read_u8]
    rw [if_pos rfl, read_u64be_be64 t.1 _ h0]
    dsimp only
    rw [decode_string_enc t.2.1 _ h1 h2]
    dsimp only
    rw [decode_string_enc t.2.2 _ h3 h4]
    dsimp only
    rw [ih hr (db_insert acc t.2.1 ⟨t.2.2, now, t.1⟩) rest]
    rfl

theorem usize_sub_of_le (a b : Nat) (hle : b ≤ a) (ha : a < 2 ^ 64) :
    usize_sub a b = a - b := by
  unfold usize_sub
  rw [show a + 2 ^ 64 - b = (a - b) + 2 ^ 64 by omega, Nat.add_mod_right,
    Nat.mod_eq_of_lt (by omega)]

theorem read_plain_entries_eof (now c : Nat) (acc : Db) :
    read_plain_entries now (c + 1) acc [] = .error .err := rfl

/-- C10: with `M ≤ N` — which always holds for an encoded section, where
`N` counts all entries and `M` the expiry ones — the unchecked `usize`
subtraction `N − M` cannot wrap and the reader consumes exactly `N − M`
plain entries followed by exactly `M` expiry entries, building their map
and leaving the rest of the input; and on the input `FB 00 01` with
`N = 0 < M = 1` the subtraction wraps to `2 ^ 64 − 1` and the reader does
not return normally (the plain-entry loop fails at EOF). -/
theorem db_section_reads_counts (now : Nat) (plains : List (List Nat × List Nat))
    (exps : List (Nat × List Nat × List Nat)) (rest : List Nat)
    (hN : plains.length + exps.length ≤ 63)
    (hp : ∀ kv ∈ plains, kv.1.length ≤ 63 ∧ ascii kv.1 = true ∧
      kv.2.length ≤ 63 ∧ ascii kv.2 = true)
    (he : ∀ t ∈ exps, t.1 < 2 ^ 64 ∧ t.2.1.length ≤ 63 ∧ ascii t.2.1 = true ∧
      t.2.2.length ≤ 63 ∧ ascii t.2.2 = true) :
    parse_database_section now (enc_section plains exps ++ rest) =
      .ok (load_expiry now (load_plain now [] plains) exps, rest) ∧
    parse_database_section now [251, 0, 1] = .error .err := by
  constructor
  · have hshape : enc_section plains exps ++ rest =
        251 :: (plains.length + exps.length) :: exps.length ::
          ((plains.map enc_plain).flatten ++ ((exps.map enc_expiry).flatten ++ rest)) := by
      simp [enc_section, List.append_assoc]
    rw [hshape]
    unfold parse_database_section
    rw [show read_until_byte 251
        (251 :: (plains.length + exps.length) :: exps.length ::
          ((plains.map enc_plain).flatten ++ ((exps.map enc_expiry).flatten ++ rest))) =
        (plains.length + exps.length) :: exps.length ::
          ((plains.map enc_plain).flatten ++ ((exps.map enc_expiry).flatten ++ rest))
      from rfl]
    rw [parse_size_single (plains.length + exps.length) _ hN]
    dsimp only
    rw [parse_size_single exps.length _ (by omega)]
    dsimp only
    rw [usize_sub_of_le (plains.length + exps.length) exps.length (by omega)
      (by omega), show plains.length + exps.length - exps.length = plains.length by omega]
    rw [read_plain_entries_enc now plains hp [] ((exps.map enc_expiry).flatten ++ rest)]
    dsimp only
    exact read_expiry_entries_enc now exps he (load_plain now [] plains) rest
  · unfold parse_database_section
    rw [show read_until_byte 251 [251, 0, 1] = [0, 1] from rfl]
    rw [show parse_size_encoding [0, 1] = .ok (0, [1]) from rfl]
    dsimp only
    rw [show parse_size_encoding [1] = .ok (1, []) from rfl]
    dsimp only
    rw [show usize_sub 0 1 = (2 ^ 64 - 2) + 1 by decide]
    rw [read_plain_entries_eof]

/-- Witness for C10 at a section with one plain and one expiry entry and a
trailing byte left unconsumed. -/
theorem db_section_reads_counts_wit :
    parse_database_section 3 (enc_section [([97], [98])] [(5, [99], [100])] ++ [7]) =
      .ok (load_expiry 3 (load_plain 3 [] [([97], [98])]) [(5, [99], [100])], [7]) :=
  (db_section_reads_counts 3 [([97], [98])] [(5, [99], [100])] [7]
    (by decide) (by decide) (by decide)).1

end Redis
